import Mathlib

/-!
Shallow embedding of the orbimage library (src/lib.rs): the Image container,
the region-of-interest view, and the BMP decoder.  Machine integers (u32, u8)
are modelled as Nat with explicit `% 2^32` / `% 256` where the Rust code can
wrap; fallible operations return Except/Option; the external renderer blit is
modelled by recording the calls that would be issued.
-/

namespace Orbimage

/-- Modelled from the spec: the external pixel type (orbclient Color), four
8-bit unsigned channels red, green, blue, alpha. -/
structure Color where
  r : Nat
  g : Nat
  b : Nat
  a : Nat
  deriving Repr, DecidableEq

/-- Modelled from the spec: orbclient Color construction from r, g, b with a
fully opaque alpha channel. -/
def Color.rgb (r g b : Nat) : Color := ⟨r, g, b, 255⟩

/-- Modelled from the spec: orbclient Color construction from r, g, b, a. -/
def Color.rgba (r g b a : Nat) : Color := ⟨r, g, b, a⟩

/-- The Image container: width, height and the flat pixel buffer. -/
structure Image where
  w : Nat
  h : Nat
  data : List Color
  deriving Repr, DecidableEq

/-- `Image::width` accessor. -/
def Image.width (img : Image) : Nat := img.w

/-- `Image::height` accessor. -/
def Image.height (img : Image) : Nat := img.h

/-- `Image::from_data`: the length check `(width * height) as usize != data.len()`
is a u32 multiplication, hence the `% 2^32`. -/
def Image.from_data (width height : Nat) (data : List Color) : Except String Image :=
  if (width * height) % 4294967296 ≠ data.length then
    .error "not enough or too much data given compared to width and height"
  else
    .ok ⟨width, height, data⟩

/-- `Image::from_color`: builds `vec![color; width as usize * height as usize]`
(the usize product is exact) and unwraps `from_data`; the unwrap panic is
modelled as `none`. -/
def Image.from_color (width height : Nat) (color : Color) : Option Image :=
  (Image.from_data width height (List.replicate (width * height) color)).toOption

/-- The region-of-interest view over an image. -/
structure ImageRoi where
  x : Nat
  y : Nat
  w : Nat
  h : Nat
  image : Image
  deriving Repr, DecidableEq

/-- `Image::roi`: clamped view; the sums `x + w` and `y + h` are u32 additions,
hence the `% 2^32`. -/
def Image.roi (img : Image) (x y w h : Nat) : ImageRoi :=
  let x1 := min x img.w
  let y1 := min y img.h
  let x2 := max x1 (min ((x + w) % 4294967296) img.w)
  let y2 := max y1 (min ((y + h) % 4294967296) img.h)
  ⟨x1, y1, x2 - x1, y2 - y1, img⟩

/-- One recorded renderer call: destination x, destination y, blit width,
blit height, and the start offset of the forwarded slice of the source
buffer.  Modelled from the spec: the renderer surface consumes
`blit(x, y, width, height, pixel_row_slice)` calls. -/
abbrev Blit : Type := Int × Int × Nat × Nat × Nat

/-- The `while offset < last_offset` loop of `ImageRoi::draw`, with explicit
fuel; running out of fuel while the loop guard still holds (possible only for
a zero stride, which no roi-constructed view reaches) is `none`. -/
def drawLoop (stride last w : Nat) : Nat → Nat → Int → Int → Option (List Blit)
  | 0, offset, _, _ => if offset < last then none else some []
  | fuel + 1, offset, x, y =>
      if offset < last then
        Option.map (fun l => ((x, y, w, 1, offset) : Blit) :: l)
          (drawLoop stride last w fuel (offset + stride) x (y + 1))
      else some []

/-- `ImageRoi::draw`: records the sequence of `window.image` calls.  The
initial offset and the raw last offset are u32 computations (`% 2^32`); the
last offset is clamped by the buffer length, and the loop then walks in usize
arithmetic.  Fuel `last + 1` suffices for any positive stride. -/
def ImageRoi.draw (r : ImageRoi) (x y : Int) : Option (List Blit) :=
  let stride := r.image.w
  let offset := (r.y * stride + r.x) % 4294967296
  let last := min (((r.y + r.h) * stride + r.x) % 4294967296) r.image.data.length
  drawLoop stride last r.w (last + 1) offset x y

/-- The defensive byte accessor `get` of `parse_bmp`: in-range bytes are
returned, out-of-range reads yield 0. -/
def bmpGet (fd : List Nat) (i : Nat) : Nat := fd.getD i 0

/-- `getw`: little-endian 16-bit read. -/
def bmpGetw (fd : List Nat) (i : Nat) : Nat :=
  bmpGet fd i + (bmpGet fd (i + 1)) <<< 8

/-- `getd`: little-endian 32-bit read. -/
def bmpGetd (fd : List Nat) (i : Nat) : Nat :=
  bmpGet fd i + (bmpGet fd (i + 1)) <<< 8 + (bmpGet fd (i + 2)) <<< 16 +
    (bmpGet fd (i + 3)) <<< 24

/-- `gets`: reads `len` bytes from `start` as characters. -/
def bmpGets (fd : List Nat) (start len : Nat) : List Char :=
  (List.range len).map (fun k => Char.ofNat (bmpGet fd (start + k)))

/-- Pixel data offset field at 0xA. -/
def bmpOffset (fd : List Nat) : Nat := bmpGetd fd 0xA

/-- Width field at 0x12. -/
def bmpWidth (fd : List Nat) : Nat := bmpGetd fd 0x12

/-- Height field at 0x16. -/
def bmpHeight (fd : List Nat) : Nat := bmpGetd fd 0x16

/-- Bit depth field at 0x1C (16-bit, widened to u32). -/
def bmpDepth (fd : List Nat) : Nat := bmpGetw fd 0x1C

/-- `let bytes = (depth + 7) / 8`. -/
def bmpBytes (fd : List Nat) : Nat := (bmpDepth fd + 7) / 8

/-- `let row_bytes = (depth * width + 31) / 32 * 4` in u32 arithmetic: the
product and the addition wrap at 2^32. -/
def bmpRowBytes (fd : List Nat) : Nat :=
  ((bmpDepth fd * bmpWidth fd) % 4294967296 + 31) % 4294967296 / 32 * 4

/-- Red mask: 0xFF0000 unless the field at 0x1E equals 3, then read at 0x36. -/
def bmpRedMask (fd : List Nat) : Nat :=
  if bmpGetd fd 0x1E = 3 then bmpGetd fd 0x36 else 0xFF0000

/-- Green mask: 0xFF00 unless the field at 0x1E equals 3, then read at 0x3A. -/
def bmpGreenMask (fd : List Nat) : Nat :=
  if bmpGetd fd 0x1E = 3 then bmpGetd fd 0x3A else 0xFF00

/-- Blue mask: 0xFF unless the field at 0x1E equals 3, then read at 0x3E. -/
def bmpBlueMask (fd : List Nat) : Nat :=
  if bmpGetd fd 0x1E = 3 then bmpGetd fd 0x3E else 0xFF

/-- Alpha mask: 0xFF000000 unless the field at 0x1E equals 3, then read at 0x42. -/
def bmpAlphaMask (fd : List Nat) : Nat :=
  if bmpGetd fd 0x1E = 3 then bmpGetd fd 0x42 else 0xFF000000

/-- The shift-search loop: `while mask > 0 && shift < 32 && (mask >> shift) & 1 == 0`.
The guard bounds the counter by 32, so fuel 32 makes the recursion structural
without changing the computed value: when the fuel runs out the counter has
reached 32 and the source loop would stop as well. -/
def maskShiftLoop (mask : Nat) : Nat → Nat → Nat
  | 0, s => s
  | fuel + 1, s =>
      if 0 < mask ∧ s < 32 ∧ (mask >>> s) &&& 1 = 0 then
        maskShiftLoop mask fuel (s + 1)
      else s

/-- Shift of a mask, starting the search at 0. -/
def maskShift (mask : Nat) : Nat := maskShiftLoop mask 32 0

/-- Pixel offset `offset + (height - y - 1) * row_bytes + x * bytes` in u32
arithmetic. -/
def bmpPixelOffset (fd : List Nat) (x y : Nat) : Nat :=
  (bmpOffset fd + (bmpHeight fd - y - 1) * bmpRowBytes fd + x * bmpBytes fd) % 4294967296

/-- Channel extraction `((pixel_data & mask) >> shift) as u8`. -/
def bmpChannel (word mask : Nat) : Nat := ((word &&& mask) >>> maskShift mask) % 256

/-- The body of the per-pixel loop: pushes one pixel when bytes is 3 or 4,
nothing otherwise. -/
def bmpPixel (fd : List Nat) (x y : Nat) : List Color :=
  let pd := bmpGetd fd (bmpPixelOffset fd x y)
  if bmpBytes fd = 3 then
    [Color.rgb (bmpChannel pd (bmpRedMask fd)) (bmpChannel pd (bmpGreenMask fd))
      (bmpChannel pd (bmpBlueMask fd))]
  else if bmpBytes fd = 4 then
    [Color.rgba (bmpChannel pd (bmpRedMask fd)) (bmpChannel pd (bmpGreenMask fd))
      (bmpChannel pd (bmpBlueMask fd)) (bmpChannel pd (bmpAlphaMask fd))]
  else []

/-- The full double loop `for y in 0..height { for x in 0..width { ... } }`. -/
def bmpPixels (fd : List Nat) : List Color :=
  (List.range (bmpHeight fd)).flatMap
    (fun y => (List.range (bmpWidth fd)).flatMap (fun x => bmpPixel fd x y))

/-- `parse_bmp`: signature check, then header parsing, pixel extraction and
Image construction. -/
def parse_bmp (fd : List Nat) : Except String Image :=
  if bmpGets fd 0 2 = "BM".data then
    Image.from_data (bmpWidth fd) (bmpHeight fd) (bmpPixels fd)
  else
    .error "BMP: invalid signature"

/-- The pixel value prescribed by the specification for column `x` of output
row `y`: the little-endian 32-bit word read at
`offset + (height - y - 1) * stride + x * bytes` (u32 arithmetic), with each
channel extracted by mask and shift and truncated to 8 bits; alpha is fully
opaque for 3-byte pixels and the extracted alpha value for 4-byte pixels. -/
def specPixel (fd : List Nat) (x y : Nat) : Color :=
  let pd := bmpGetd fd
    ((bmpOffset fd + (bmpHeight fd - y - 1) * bmpRowBytes fd + x * bmpBytes fd) % 4294967296)
  if bmpBytes fd = 3 then
    Color.rgb (((pd &&& bmpRedMask fd) >>> maskShift (bmpRedMask fd)) % 256)
      (((pd &&& bmpGreenMask fd) >>> maskShift (bmpGreenMask fd)) % 256)
      (((pd &&& bmpBlueMask fd) >>> maskShift (bmpBlueMask fd)) % 256)
  else
    Color.rgba (((pd &&& bmpRedMask fd) >>> maskShift (bmpRedMask fd)) % 256)
      (((pd &&& bmpGreenMask fd) >>> maskShift (bmpGreenMask fd)) % 256)
      (((pd &&& bmpBlueMask fd) >>> maskShift (bmpBlueMask fd)) % 256)
      (((pd &&& bmpAlphaMask fd) >>> maskShift (bmpAlphaMask fd)) % 256)

/-- A minimal 1x1, 24-bit bitmap (pixel data offset 0, so the pixel word is
read from the start of the header). -/
def bmp24Sample : List Nat :=
  [66, 77, 0, 0, 0, 0, 0, 0, 0, 0, 0, 0, 0, 0, 0, 0, 0, 0,
   1, 0, 0, 0, 1, 0, 0, 0, 0, 0, 24]

/-- A 1x1 bitmap declaring bit depth 8 (one byte per pixel). -/
def bmp8Sample : List Nat :=
  [66, 77, 0, 0, 0, 0, 0, 0, 0, 0, 0, 0, 0, 0, 0, 0, 0, 0,
   1, 0, 0, 0, 1, 0, 0, 0, 0, 0, 8]

/-- A bitmap declaring width 65536, height 65536 and bit depth 8: the u32
product of the dimensions wraps to 0. -/
def bmp8Huge : List Nat :=
  [66, 77, 0, 0, 0, 0, 0, 0, 0, 0, 0, 0, 0, 0, 0, 0, 0, 0,
   0, 0, 1, 0, 0, 0, 1, 0, 0, 0, 8]

/-- A 1x1, 32-bit bitmap with the bit-field-mask variant (compression field 3)
supplying red/blue-swapped masks: red = 0x000000FF, green = 0x0000FF00,
blue = 0x00FF0000, alpha = 0xFF000000. -/
def bmpMasked : List Nat :=
  [66, 77, 0, 0, 0, 0, 0, 0, 0, 0, 0, 0, 0, 0, 0, 0, 0, 0,
   1, 0, 0, 0, 1, 0, 0, 0, 0, 0, 32, 0, 3, 0, 0, 0,
   0, 0, 0, 0, 0, 0, 0, 0, 0, 0, 0, 0, 0, 0, 0, 0, 0, 0, 0, 0,
   255, 0, 0, 0, 0, 255, 0, 0, 0, 0, 255, 0, 0, 0, 0, 255]

/-- A 2x2 image of black pixels. -/
def img22 : Image := ⟨2, 2, List.replicate 4 (Color.rgb 0 0 0)⟩

/-- A sample color. -/
def sampleColor : Color := Color.rgb 9 8 7

instance {ε α : Type} [DecidableEq ε] [DecidableEq α] : DecidableEq (Except ε α) :=
  fun x y =>
    match x, y with
    | .ok a, .ok b =>
        if h : a = b then .isTrue (h ▸ rfl) else .isFalse (fun hc => h (Except.ok.inj hc))
    | .error a, .error b =>
        if h : a = b then .isTrue (h ▸ rfl) else .isFalse (fun hc => h (Except.error.inj hc))
    | .ok _, .error _ => .isFalse (fun hc => Except.noConfusion hc)
    | .error _, .ok _ => .isFalse (fun hc => Except.noConfusion hc)

/-! ## Helper lemmas -/

theorem charOfNat_inv (n : Nat) (c : Char) (hc : c.toNat ≠ 0) (h : Char.ofNat n = c) :
    n = c.toNat := by
  by_cases hv : n.isValidChar
  · subst h
    rw [Char.ofNat, dif_pos hv]
    rfl
  · exfalso
    apply hc
    subst h
    rw [Char.ofNat, dif_neg hv]
    rfl

theorem bmpGets_pair (fd : List Nat) :
    bmpGets fd 0 2 = [Char.ofNat (bmpGet fd 0), Char.ofNat (bmpGet fd 1)] := rfl

theorem from_data_ok_iff (w h : Nat) (d : List Color) (img : Image) :
    Image.from_data w h d = .ok img ↔ (w * h) % 4294967296 = d.length ∧ img = ⟨w, h, d⟩ := by
  unfold Image.from_data
  split
  next hne =>
    constructor
    · intro hco
      exact absurd hco (by simp)
    · rintro ⟨h1, _⟩
      exact absurd h1 hne
  next hne =>
    have heq : (w * h) % 4294967296 = d.length := by
      by_contra hco
      exact hne hco
    simp [heq, eq_comm]

theorem flatMap_singleton_fn {α β : Type} (l : List α) (f : α → β) :
    (l.flatMap fun a => [f a]) = l.map f := by
  induction l with
  | nil => rfl
  | cons a t ih => simp [List.flatMap_cons, ih]

theorem flatMap_const_nil {α β : Type} (l : List α) :
    (l.flatMap fun _ => ([] : List β)) = [] := by
  induction l with
  | nil => rfl
  | cons a t ih => simp [List.flatMap_cons, ih]

theorem flatMap_rows_length {α : Type} (g : Nat → Nat → α) (w h : Nat) :
    ((List.range h).flatMap fun yy => (List.range w).map fun xx => g xx yy).length = h * w := by
  induction h with
  | zero => simp
  | succ n ih =>
    rw [List.range_succ, List.flatMap_append, List.length_append, ih,
      List.flatMap_singleton, List.length_map, List.length_range, Nat.succ_mul]

theorem flatMap_rows_getD {α : Type} (g : Nat → Nat → α) (w h y x : Nat) (d : α)
    (hy : y < h) (hx : x < w) :
    ((List.range h).flatMap fun yy => (List.range w).map fun xx => g xx yy).getD (y * w + x) d
      = g x y := by
  induction h with
  | zero => omega
  | succ n ih =>
    rw [List.range_succ, List.flatMap_append, List.flatMap_singleton]
    by_cases hyn : y < n
    · have hb : y * w + x
          < ((List.range n).flatMap fun yy => (List.range w).map fun xx => g xx yy).length := by
        rw [flatMap_rows_length]
        have h2 : (y + 1) * w ≤ n * w := Nat.mul_le_mul_right w hyn
        have h1 : y * w + x < (y + 1) * w := by
          rw [Nat.succ_mul]
          omega
        omega
      rw [List.getD_append _ _ _ _ hb]
      exact ih hyn
    · have hyeq : y = n := by omega
      subst hyeq
      have hb : ((List.range y).flatMap fun yy => (List.range w).map fun xx => g xx yy).length
          ≤ y * w + x := by
        rw [flatMap_rows_length]
        omega
      rw [List.getD_append_right _ _ _ _ hb, flatMap_rows_length]
      have hsub : y * w + x - y * w = x := by omega
      rw [hsub, List.getD_eq_getElem?_getD, List.getElem?_map, List.getElem?_range hx]
      rfl

theorem mask_zero_of_low_bits (mask s : Nat) (hlt : mask < 4294967296) (h32 : 32 ≤ s)
    (hbits : ∀ j < s, mask.testBit j = false) : mask = 0 := by
  apply Nat.eq_of_testBit_eq
  intro i
  rw [Nat.zero_testBit]
  by_cases hi : i < s
  · exact hbits i hi
  · apply Nat.testBit_lt_two_pow
    calc mask < 4294967296 := hlt
      _ = 2 ^ 32 := by norm_num
      _ ≤ 2 ^ i := Nat.pow_le_pow_right (by norm_num) (by omega)

theorem maskShiftLoop_bits (mask : Nat) (hpos : 0 < mask) (hlt : mask < 4294967296) :
    ∀ fuel s, 32 - s ≤ fuel → (∀ j < s, mask.testBit j = false) →
      mask.testBit (maskShiftLoop mask fuel s) = true ∧
      ∀ j < maskShiftLoop mask fuel s, mask.testBit j = false := by
  intro fuel
  induction fuel with
  | zero =>
    intro s hs hbits
    exfalso
    have hz : mask = 0 := mask_zero_of_low_bits mask s hlt (by omega) hbits
    omega
  | succ n ih =>
    intro s hs hbits
    rw [maskShiftLoop]
    by_cases hg : 0 < mask ∧ s < 32 ∧ (mask >>> s) &&& 1 = 0
    · rw [if_pos hg]
      apply ih (s + 1) (by omega)
      intro j hj
      rcases Nat.lt_succ_iff_lt_or_eq.mp hj with hj2 | hj2
      · exact hbits j hj2
      · subst hj2
        have hg3 := hg.2.2
        rw [Nat.and_one_is_mod, Nat.shiftRight_eq_div_pow] at hg3
        rw [Nat.testBit_to_div_mod]
        simp [hg3]
    · rw [if_neg hg]
      refine ⟨?_, hbits⟩
      by_cases h32 : s < 32
      · have hbit : (mask >>> s) &&& 1 ≠ 0 := fun hc => hg ⟨hpos, h32, hc⟩
        rw [Nat.and_one_is_mod, Nat.shiftRight_eq_div_pow] at hbit
        rw [Nat.testBit_to_div_mod]
        have hm2 : mask / 2 ^ s % 2 < 2 := Nat.mod_lt _ (by norm_num)
        simp only [decide_eq_true_eq]
        omega
      · exfalso
        have hz : mask = 0 := mask_zero_of_low_bits mask s hlt (by omega) hbits
        omega

theorem ceil_div_le (a s : Nat) : (a + s - 1) / s ≤ a := by
  rcases Nat.eq_zero_or_pos s with hs | hs
  · simp [hs]
  rw [Nat.div_le_iff_le_mul_add_pred hs]
  have h1 : a ≤ s * a := Nat.le_mul_of_pos_left a hs
  omega

theorem ceil_div_step (a s : Nat) (hs : 0 < s) (ha : 0 < a) :
    (a - s + s - 1) / s + 1 = (a + s - 1) / s := by
  by_cases hle : a ≤ s
  · have h1 : a - s = 0 := by omega
    have h2 : (0 + s - 1) / s = 0 := Nat.div_eq_of_lt (by omega)
    have h3 : (a + s - 1) / s = 1 := by
      rw [show a + s - 1 = (a - 1) + s from by omega, Nat.add_div_right _ hs,
        Nat.div_eq_of_lt (by omega)]
    rw [h1, h2, h3]
  · rw [show a - s + s - 1 = a - 1 from by omega, show a + s - 1 = (a - 1) + s from by omega,
      Nat.add_div_right _ hs]

theorem drawLoop_eq (stride last w : Nat) (hs : 0 < stride) :
    ∀ fuel offset (x y : Int), (last - offset + stride - 1) / stride ≤ fuel →
      drawLoop stride last w fuel offset x y =
        some ((List.range ((last - offset + stride - 1) / stride)).map
          fun (i : Nat) => ((x, y + (i : Int), w, 1, offset + i * stride) : Blit)) := by
  intro fuel
  induction fuel with
  | zero =>
    intro offset x y hn
    have hle : ¬ offset < last := by
      intro hlt
      have h1 : stride ≤ last - offset + stride - 1 := by omega
      have h2 : 0 < (last - offset + stride - 1) / stride := Nat.div_pos h1 hs
      omega
    have hn0 : (last - offset + stride - 1) / stride = 0 := Nat.le_zero.mp hn
    rw [hn0]
    simp [drawLoop, hle]
  | succ m ih =>
    intro offset x y hn
    by_cases hlt : offset < last
    · have ha : 0 < last - offset := by omega
      have hstep : (last - (offset + stride) + stride - 1) / stride + 1
          = (last - offset + stride - 1) / stride := by
        rw [show last - (offset + stride) = last - offset - stride from by omega]
        exact ceil_div_step (last - offset) stride hs ha
      simp only [drawLoop, if_pos hlt]
      rw [ih (offset + stride) x (y + 1) (by omega)]
      rw [Option.map_some', ← hstep, List.range_succ_eq_map, List.map_cons, List.map_map]
      refine congrArg some (congrArg₂ List.cons ?_ ?_)
      · simp
      · refine List.map_congr_left ?_
        intro i hi
        simp only [Function.comp, Prod.mk.injEq, Nat.succ_eq_add_one]
        refine ⟨trivial, ?_, trivial, trivial, ?_⟩
        · push_cast
          ring
        · ring
    · have hn0 : (last - offset + stride - 1) / stride = 0 := by
        have h1 : last - offset = 0 := by omega
        rw [h1]
        exact Nat.div_eq_of_lt (by omega)
      rw [hn0]
      simp [drawLoop, hlt]

theorem bmpPixel_eq (fd : List Nat) (x y : Nat) (hb : bmpBytes fd = 3 ∨ bmpBytes fd = 4) :
    bmpPixel fd x y = [specPixel fd x y] := by
  rcases hb with h | h <;> simp [bmpPixel, specPixel, h, bmpChannel, bmpPixelOffset]

theorem bmpPixels_rows (fd : List Nat) (hb : bmpBytes fd = 3 ∨ bmpBytes fd = 4) :
    bmpPixels fd = (List.range (bmpHeight fd)).flatMap
      fun y => (List.range (bmpWidth fd)).map fun x => specPixel fd x y := by
  unfold bmpPixels
  have hpix : ∀ x y, bmpPixel fd x y = [specPixel fd x y] := fun x y => bmpPixel_eq fd x y hb
  simp only [hpix, flatMap_singleton_fn]

theorem bmpPixels_nil (fd : List Nat) (h3 : bmpBytes fd ≠ 3) (h4 : bmpBytes fd ≠ 4) :
    bmpPixels fd = [] := by
  unfold bmpPixels
  have hpix : ∀ x y : Nat, bmpPixel fd x y = ([] : List Color) := by
    intro x y
    simp [bmpPixel, h3, h4]
  simp only [hpix, flatMap_const_nil]

/-! ## Claim theorems -/

/-- C3 counterexample: `Image::from_data` compares the buffer length with the
u32 (wrapping) product of the dimensions, so for width = height = 65536 and an
empty buffer it succeeds even though the true product 65536 * 65536 is not the
buffer length 0. -/
theorem from_data_cex :
    Image.from_data 65536 65536 [] = .ok ⟨65536, 65536, []⟩ ∧
    (65536 * 65536 : Nat) ≠ ([] : List Color).length := by
  constructor
  · rw [from_data_ok_iff]
    exact ⟨by norm_num, rfl⟩
  · simp

/-- C3 (amended): `Image::from_data width height data` succeeds, returning
exactly the given width, height and data, if and only if
`data.length = (width * height) % 2^32` (the u32 product), and otherwise
returns the size-mismatch error and constructs no Image. -/
theorem from_data_spec (w h : Nat) (d : List Color) :
    (Image.from_data w h d = .ok ⟨w, h, d⟩ ↔ (w * h) % 4294967296 = d.length) ∧
    (Image.from_data w h d
        = .error "not enough or too much data given compared to width and height"
      ↔ (w * h) % 4294967296 ≠ d.length) ∧
    (∀ img : Image, Image.from_data w h d = .ok img →
      img.width = w ∧ img.height = h ∧ img.data = d) := by
  refine ⟨?_, ?_, ?_⟩
  · rw [from_data_ok_iff]
    simp
  · unfold Image.from_data
    split
    next hne => simp [hne]
    next hne =>
      have heq : (w * h) % 4294967296 = d.length := by
        by_contra hco
        exact hne hco
      simp [heq]
  · intro img hok
    obtain ⟨h1, h2⟩ := (from_data_ok_iff w h d img).mp hok
    subst h2
    exact ⟨rfl, rfl, rfl⟩

/-- C3 witness: a 2 by 3 image from a buffer of 6 pixels roundtrips. -/
theorem from_data_spec_witness :
    Image.from_data 2 3 (List.replicate 6 sampleColor)
        = .ok ⟨2, 3, List.replicate 6 sampleColor⟩ ∧
    (Image.mk 2 3 (List.replicate 6 sampleColor)).width = 2 ∧
    (Image.mk 2 3 (List.replicate 6 sampleColor)).height = 3 ∧
    (Image.mk 2 3 (List.replicate 6 sampleColor)).data = List.replicate 6 sampleColor := by
  have h := from_data_spec 2 3 (List.replicate 6 sampleColor)
  have hok := h.1.mpr (by decide)
  exact ⟨hok, h.2.2 _ hok⟩

/-- C4: `Image::roi` is total and clamps: the view position is
`(min x w, min y h)`, the far corner is `max x1 (min ((x + w) % 2^32) w)` (the
sum is a u32 addition) and likewise for y, the view always fits inside the
image, and a fully out-of-bounds request yields an empty view. -/
theorem roi_spec (img : Image) (x y w h : Nat) :
    (img.roi x y w h).x = min x img.w ∧
    (img.roi x y w h).y = min y img.h ∧
    (img.roi x y w h).x + (img.roi x y w h).w
      = max (min x img.w) (min ((x + w) % 4294967296) img.w) ∧
    (img.roi x y w h).y + (img.roi x y w h).h
      = max (min y img.h) (min ((y + h) % 4294967296) img.h) ∧
    (img.roi x y w h).x + (img.roi x y w h).w ≤ img.w ∧
    (img.roi x y w h).y + (img.roi x y w h).h ≤ img.h ∧
    (img.roi x y w h).image = img ∧
    (img.w ≤ x → (img.roi x y w h).w = 0) ∧
    (img.h ≤ y → (img.roi x y w h).h = 0) := by
  refine ⟨rfl, rfl, ?_, ?_, ?_, ?_, rfl, ?_, ?_⟩ <;>
    (simp only [Image.roi]; omega)

/-- C4 witness: a request far outside a 2 by 2 image yields an empty view. -/
theorem roi_spec_witness :
    (img22.roi 9 9 5 5).w = 0 ∧ (img22.roi 9 9 5 5).h = 0 :=
  ⟨(roi_spec img22 9 9 5 5).2.2.2.2.2.2.2.1 (by decide),
   (roi_spec img22 9 9 5 5).2.2.2.2.2.2.2.2 (by decide)⟩

/-- C5: when the first two bytes (out-of-range bytes reading as 0) are not the
ASCII characters B and M, `parse_bmp` returns the invalid-signature error and
constructs no Image. -/
theorem parse_bmp_bad_sig (fd : List Nat)
    (h : ¬(bmpGet fd 0 = 66 ∧ bmpGet fd 1 = 77)) :
    parse_bmp fd = .error "BMP: invalid signature" := by
  unfold parse_bmp
  rw [if_neg]
  intro hsig
  rw [bmpGets_pair, show "BM".data = ['B', 'M'] from rfl] at hsig
  injection hsig with h1 hrest
  injection hrest with h2 _
  exact h ⟨(charOfNat_inv _ _ (by decide) h1).trans (by decide),
    (charOfNat_inv _ _ (by decide) h2).trans (by decide)⟩

/-- C5 witness: two X bytes fail the signature check. -/
theorem parse_bmp_bad_sig_witness :
    parse_bmp [88, 88] = .error "BMP: invalid signature" :=
  parse_bmp_bad_sig [88, 88] (by decide)

/-- C8 counterexample: the solid-fill constructor `Image::from_color` fails
(unwrap panic, modelled as `none`) when the u32 product of the dimensions
wraps, e.g. at 65536 by 65536. -/
theorem from_color_cex : Image.from_color 65536 65536 sampleColor = none := by
  unfold Image.from_color
  have hne : Image.from_data 65536 65536 (List.replicate (65536 * 65536) sampleColor)
      = .error "not enough or too much data given compared to width and height" := by
    unfold Image.from_data
    rw [if_pos]
    rw [List.length_replicate]
    norm_num
  rw [hne]
  rfl

/-- C8 (amended): for `width * height < 2^32` the solid-fill constructor never
fails and every pixel of the result equals the given color. -/
theorem from_color_spec (w h : Nat) (c : Color) (hwh : w * h < 4294967296) :
    Image.from_color w h c = some ⟨w, h, List.replicate (w * h) c⟩ ∧
    (List.replicate (w * h) c).length = w * h ∧
    (∀ p ∈ List.replicate (w * h) c, p = c) := by
  refine ⟨?_, by simp, fun p hp => List.eq_of_mem_replicate hp⟩
  have hok : Image.from_data w h (List.replicate (w * h) c)
      = .ok ⟨w, h, List.replicate (w * h) c⟩ :=
    (from_data_ok_iff _ _ _ _).mpr ⟨by rw [List.length_replicate]; exact Nat.mod_eq_of_lt hwh, rfl⟩
  unfold Image.from_color
  rw [hok]
  rfl

/-- C8 witness: a 3 by 2 solid fill yields 6 pixels of the given color. -/
theorem from_color_spec_witness :
    Image.from_color 3 2 sampleColor = some ⟨3, 2, List.replicate 6 sampleColor⟩ :=
  ((from_color_spec 3 2 sampleColor (by norm_num)).1).trans (by decide)

/-- C9: a byte sequence with a valid BM signature declaring width 0 or
height 0 decodes to a valid empty Image, not an error. -/
theorem parse_bmp_zero_dims (fd : List Nat)
    (hsig : bmpGet fd 0 = 66 ∧ bmpGet fd 1 = 77)
    (hdim : bmpWidth fd = 0 ∨ bmpHeight fd = 0) :
    parse_bmp fd = .ok ⟨bmpWidth fd, bmpHeight fd, []⟩ := by
  have hpix : bmpPixels fd = [] := by
    unfold bmpPixels
    rcases hdim with h0 | h0
    · simp only [h0, List.range_zero, List.flatMap_nil]
      exact flatMap_const_nil _
    · simp only [h0, List.range_zero, List.flatMap_nil]
  have hsig2 : bmpGets fd 0 2 = "BM".data := by
    rw [bmpGets_pair, hsig.1, hsig.2]
  unfold parse_bmp
  rw [if_pos hsig2, hpix]
  exact (from_data_ok_iff _ _ _ _).mpr ⟨by rcases hdim with h0 | h0 <;> simp [h0], rfl⟩

/-- C1 counterexample: the claim covers every byte sequence whose first two
bytes are B, M, yet on the 1x1 depth-8 sample (bytes-per-pixel 1) the decoder
appends no pixel and returns the size-mismatch error, producing no Image at
all, so the decoder does not produce a formula-satisfying Image for every
BM-prefixed input. -/
theorem parse_bmp_pixels_cex :
    bmpGet bmp8Sample 0 = 66 ∧ bmpGet bmp8Sample 1 = 77 ∧
    parse_bmp bmp8Sample
      = .error "not enough or too much data given compared to width and height" ∧
    ∀ img : Image, parse_bmp bmp8Sample ≠ .ok img := by
  refine ⟨by decide, by decide, by decide, ?_⟩
  intro img h
  have he : parse_bmp bmp8Sample
      = .error "not enough or too much data given compared to width and height" := by decide
  rw [he] at h
  exact Except.noConfusion h

/-- C1 (amended): whenever the decoder succeeds (and the derived bytes-per-pixel is 3 or
4, the only cases in which pixels are appended), the resulting Image has the
header's width and height, its buffer holds height * width pixels in row-major
top-first order, and the pixel of output row y, column x is the channel
extraction of the little-endian word read at
`offset + (height - y - 1) * stride + x * bytes` (u32 arithmetic), with alpha
forced opaque for 3-byte pixels and taken from the alpha channel for 4-byte
pixels, as recorded by `specPixel`. -/
theorem parse_bmp_pixels (fd : List Nat) (img : Image)
    (hok : parse_bmp fd = .ok img) (hb : bmpBytes fd = 3 ∨ bmpBytes fd = 4) :
    img.w = bmpWidth fd ∧ img.h = bmpHeight fd ∧
    img.data.length = bmpHeight fd * bmpWidth fd ∧
    ∀ y x, y < bmpHeight fd → x < bmpWidth fd →
      img.data.getD (y * bmpWidth fd + x) (Color.rgb 0 0 0) = specPixel fd x y := by
  unfold parse_bmp at hok
  split at hok
  · obtain ⟨hmod, himg⟩ := (from_data_ok_iff _ _ _ _).mp hok
    have hrows := bmpPixels_rows fd hb
    have hlen : (bmpPixels fd).length = bmpHeight fd * bmpWidth fd := by
      rw [hrows]
      exact flatMap_rows_length (specPixel fd) (bmpWidth fd) (bmpHeight fd)
    have hget : ∀ y x, y < bmpHeight fd → x < bmpWidth fd →
        (bmpPixels fd).getD (y * bmpWidth fd + x) (Color.rgb 0 0 0) = specPixel fd x y := by
      intro y x hy hx
      rw [hrows]
      exact flatMap_rows_getD (specPixel fd) (bmpWidth fd) (bmpHeight fd) y x
        (Color.rgb 0 0 0) hy hx
    have hw : img.w = bmpWidth fd := by rw [himg]
    have hh : img.h = bmpHeight fd := by rw [himg]
    have hd : img.data = bmpPixels fd := by rw [himg]
    refine ⟨hw, hh, ?_, ?_⟩
    · rw [hd]
      exact hlen
    · intro y x hy hx
      rw [hd]
      exact hget y x hy hx
  · exact absurd hok (by simp)

/-- C1 witness: the 1x1, 24-bit sample decodes to the pixel the formula
prescribes. -/
theorem parse_bmp_pixels_witness :
    (Image.mk 1 1 [Color.mk 0 77 66 255]).data.getD (0 * bmpWidth bmp24Sample + 0)
        (Color.rgb 0 0 0) = specPixel bmp24Sample 0 0 :=
  (parse_bmp_pixels bmp24Sample ⟨1, 1, [⟨0, 77, 66, 255⟩]⟩ (by decide)
    (Or.inl (by decide))).2.2.2 0 0 (by decide) (by decide)

/-- C10 counterexample: with width = height = 65536 (the u32 product of the
dimensions wraps to 0) and bit depth 8, no pixel is appended yet the decode
succeeds with an empty Image instead of returning the size-mismatch error. -/
theorem parse_bmp_bad_depth_cex :
    bmpWidth bmp8Huge = 65536 ∧ bmpHeight bmp8Huge = 65536 ∧ bmpBytes bmp8Huge = 1 ∧
    parse_bmp bmp8Huge = .ok ⟨65536, 65536, []⟩ := by
  refine ⟨by decide, by decide, by decide, ?_⟩
  have hpix : bmpPixels bmp8Huge = [] := bmpPixels_nil bmp8Huge (by decide) (by decide)
  unfold parse_bmp
  rw [if_pos (by decide : bmpGets bmp8Huge 0 2 = "BM".data), hpix,
    show bmpWidth bmp8Huge = 65536 from by decide,
    show bmpHeight bmp8Huge = 65536 from by decide]
  exact (from_data_ok_iff _ _ _ _).mpr ⟨by norm_num, rfl⟩

/-- C10 (amended): with a valid signature, a bytes-per-pixel other than 3 or 4
appends no pixel, and when the u32 product of the declared dimensions is
nonzero the decode returns the size-mismatch error. -/
theorem parse_bmp_bad_depth (fd : List Nat)
    (hsig : bmpGet fd 0 = 66 ∧ bmpGet fd 1 = 77)
    (h3 : bmpBytes fd ≠ 3) (h4 : bmpBytes fd ≠ 4)
    (hwh : (bmpWidth fd * bmpHeight fd) % 4294967296 ≠ 0) :
    bmpPixels fd = [] ∧
    parse_bmp fd = .error "not enough or too much data given compared to width and height" := by
  have hpix := bmpPixels_nil fd h3 h4
  refine ⟨hpix, ?_⟩
  have hsig2 : bmpGets fd 0 2 = "BM".data := by
    rw [bmpGets_pair, hsig.1, hsig.2]
  unfold parse_bmp
  rw [if_pos hsig2, hpix]
  unfold Image.from_data
  have hcond : (bmpWidth fd * bmpHeight fd) % 4294967296 ≠ ([] : List Color).length := by
    simpa using hwh
  rw [if_pos hcond]

/-- C10 witness: a 1x1, 8-bit-depth bitmap fails with the size-mismatch error. -/
theorem parse_bmp_bad_depth_witness :
    parse_bmp bmp8Sample
      = .error "not enough or too much data given compared to width and height" :=
  (parse_bmp_bad_depth bmp8Sample (by decide) (by decide) (by decide) (by decide)).2

/-- C7 counterexample: for the view of the 2x2 image requested at x = 5 (so
x1 = 2 = image width, zero view width) with height 2, the walk stops at the
buffer length and issues a single blit although the view has two rows, so
draw does not issue one blit per source row. -/
theorem roi_draw_cex :
    (img22.roi 5 0 0 2).h = 2 ∧
    (img22.roi 5 0 0 2).draw 0 0 = some [((0 : Int), (0 : Int), 0, 1, 2)] :=
  ⟨by decide, by decide⟩

/-- C7 (amended): for a view satisfying the roi invariants over an image whose
buffer length is width * height (with no u32 overflow in the offset
computations), draw issues blits for consecutive row indices i while the row
start `(y1 + i) * width + x1` stays below
`min ((y1 + h) * width + x1) (buffer length)` — that is
`ceil((min ((y1+h)*W + x1) (W*H) - (y1*W + x1)) / W)` blits (0 when W = 0);
blit i forwards the slice starting at offset `(y1 + i) * W + x1` with blit
width the view width, blit height 1, at destination `(dest_x, dest_y + i)`.
This is one blit per source row except that the final row's blit can be
dropped when `x1 = W`. -/
theorem roi_draw_spec (r : ImageRoi) (dx dy : Int)
    (hx : r.x ≤ r.image.w) (hyh : r.y + r.h ≤ r.image.h)
    (hlen : r.image.data.length = r.image.w * r.image.h)
    (hfit : r.image.w * (r.image.h + 1) < 4294967296) :
    r.draw dx dy =
      some ((List.range (if r.image.w = 0 then 0 else
          (min ((r.y + r.h) * r.image.w + r.x) (r.image.w * r.image.h)
              - (r.y * r.image.w + r.x) + r.image.w - 1) / r.image.w)).map
        fun (i : Nat) => ((dx, dy + (i : Int), r.w, 1,
          (r.y + i) * r.image.w + r.x) : Blit)) := by
  by_cases hW : r.image.w = 0
  · have hx0 : r.x = 0 := by omega
    simp [ImageRoi.draw, hW, hx0, hlen, drawLoop]
  · have hWpos : 0 < r.image.w := Nat.pos_of_ne_zero hW
    have hof : r.y * r.image.w + r.x < 4294967296 := by
      have h1 : r.y ≤ r.image.h := by omega
      have h2 : r.y * r.image.w ≤ r.image.h * r.image.w := Nat.mul_le_mul_right _ h1
      have h3 : r.image.w * (r.image.h + 1) = r.image.h * r.image.w + r.image.w := by ring
      omega
    have hlf : (r.y + r.h) * r.image.w + r.x < 4294967296 := by
      have h2 : (r.y + r.h) * r.image.w ≤ r.image.h * r.image.w := Nat.mul_le_mul_right _ hyh
      have h3 : r.image.w * (r.image.h + 1) = r.image.h * r.image.w + r.image.w := by ring
      omega
    have hfuel : (min ((r.y + r.h) * r.image.w + r.x) (r.image.w * r.image.h)
        - (r.y * r.image.w + r.x) + r.image.w - 1) / r.image.w
        ≤ min ((r.y + r.h) * r.image.w + r.x) (r.image.w * r.image.h) + 1 := by
      have h1 := ceil_div_le (min ((r.y + r.h) * r.image.w + r.x) (r.image.w * r.image.h)
        - (r.y * r.image.w + r.x)) r.image.w
      omega
    simp only [ImageRoi.draw]
    rw [Nat.mod_eq_of_lt hof, Nat.mod_eq_of_lt hlf, hlen]
    rw [drawLoop_eq r.image.w (min ((r.y + r.h) * r.image.w + r.x) (r.image.w * r.image.h))
      r.w hWpos (min ((r.y + r.h) * r.image.w + r.x) (r.image.w * r.image.h) + 1)
      (r.y * r.image.w + r.x) dx dy hfuel]
    rw [if_neg hW]
    refine congrArg some (List.map_congr_left ?_)
    intro i hi
    simp only [Prod.mk.injEq]
    refine ⟨trivial, trivial, trivial, trivial, ?_⟩
    ring

/-- C7 witness: the full view of the 2x2 image draws one blit per row,
forwarding offsets 0 and 2 to destinations (7, 9) and (7, 10). -/
theorem roi_draw_spec_witness :
    (img22.roi 0 0 2 2).draw 7 9
      = some [((7 : Int), (9 : Int), 2, 1, 0), ((7 : Int), (10 : Int), 2, 1, 2)] :=
  (roi_draw_spec (img22.roi 0 0 2 2) 7 9 (by decide) (by decide) (by decide)
    (by decide)).trans (by decide)

/-- C2: the channel masks default to blue 0xFF, green 0xFF00, red 0xFF0000,
alpha 0xFF000000 unless the field at 0x1E equals 3, in which case they are the
little-endian words at 0x36, 0x3A, 0x3E, 0x42 (red, green, blue, alpha); the
shift of a mask is the index of its lowest set bit (0 for the zero mask); a
channel value is the masked word shifted right and truncated to 8 bits. -/
theorem bmp_mask_spec (fd : List Nat) (m : Nat) (hm : m < 4294967296) :
    (bmpRedMask fd = if bmpGetd fd 0x1E = 3 then bmpGetd fd 0x36 else 0xFF0000) ∧
    (bmpGreenMask fd = if bmpGetd fd 0x1E = 3 then bmpGetd fd 0x3A else 0xFF00) ∧
    (bmpBlueMask fd = if bmpGetd fd 0x1E = 3 then bmpGetd fd 0x3E else 0xFF) ∧
    (bmpAlphaMask fd = if bmpGetd fd 0x1E = 3 then bmpGetd fd 0x42 else 0xFF000000) ∧
    (m = 0 → maskShift m = 0) ∧
    (0 < m → m.testBit (maskShift m) = true ∧ ∀ j < maskShift m, m.testBit j = false) ∧
    (∀ word mask : Nat, bmpChannel word mask = ((word &&& mask) >>> maskShift mask) % 256) := by
  refine ⟨rfl, rfl, rfl, rfl, ?_, ?_, fun _ _ => rfl⟩
  · intro h0
    subst h0
    rfl
  · intro hpos
    exact maskShiftLoop_bits m hpos hm 32 0 (by omega) (fun j hj => absurd hj (Nat.not_lt_zero j))

/-- C2 witness: the bit-field-mask sample supplies red/blue-swapped masks and
those masks drive the channel assignment (the decoded pixel takes red from the
low byte); the shift of 0xFF0000 reaches its lowest set bit. -/
theorem bmp_mask_spec_witness :
    bmpRedMask bmpMasked = 255 ∧ bmpBlueMask bmpMasked = 16711680 ∧
    Nat.testBit 16711680 (maskShift 16711680) = true ∧
    maskShift 0 = 0 ∧
    parse_bmp bmpMasked = .ok ⟨1, 1, [⟨66, 77, 0, 0⟩]⟩ := by
  refine ⟨?_, ?_, ?_, ?_, by decide⟩
  · exact ((bmp_mask_spec bmpMasked 1 (by norm_num)).1).trans (by decide)
  · exact ((bmp_mask_spec bmpMasked 1 (by norm_num)).2.2.1).trans (by decide)
  · exact ((bmp_mask_spec bmpMasked 16711680 (by norm_num)).2.2.2.2.2.1 (by norm_num)).1
  · exact (bmp_mask_spec bmpMasked 0 (by norm_num)).2.2.2.2.1 rfl

/-- C6: the byte accessor returns the byte when the index is in range and 0
otherwise, and the decoder is total: on any input it returns an Image or one
of the two error values, never an out-of-bounds fault. -/
theorem bmpGet_total (fd : List Nat) (i : Nat) :
    (∀ h : i < fd.length, bmpGet fd i = fd[i]) ∧
    (fd.length ≤ i → bmpGet fd i = 0) ∧
    ((∃ img : Image, parse_bmp fd = .ok img) ∨
      parse_bmp fd = .error "BMP: invalid signature" ∨
      parse_bmp fd = .error "not enough or too much data given compared to width and height") := by
  refine ⟨?_, ?_, ?_⟩
  · intro h
    simp [bmpGet, List.getD_eq_getElem?_getD, List.getElem?_eq_getElem h]
  · intro h
    simp [bmpGet, List.getD_eq_getElem?_getD, List.getElem?_eq_none h]
  · unfold parse_bmp
    split
    · unfold Image.from_data
      split
      · right
        right
        rfl
      · left
        exact ⟨_, rfl⟩
    · right
      left
      rfl

/-- C6 witness: an in-range read returns the byte, an out-of-range read 0. -/
theorem bmpGet_total_witness :
    bmpGet [5] 0 = 5 ∧ bmpGet [5] 3 = 0 :=
  ⟨(bmpGet_total [5] 0).1 (by decide), (bmpGet_total [5] 3).2.1 (by decide)⟩

/-- C9 witness: the two signature bytes alone decode to the empty image. -/
theorem parse_bmp_zero_dims_witness :
    parse_bmp [66, 77] = .ok ⟨0, 0, []⟩ :=
  (parse_bmp_zero_dims [66, 77] (by decide) (Or.inl (by decide))).trans
    (congrArg Except.ok (by decide))

end Orbimage
